import Mathlib

/-!
Shallow embedding of the async-prost transport codec (src/src/reader.rs,
src/src/writer.rs, src/src/stream.rs, src/src/frame.rs).

Bytes are modelled as natural numbers (values below 256 where it matters).
The external prost codec capability (encode, decode, encoded_len) is
abstracted as function parameters: an encoder T to byte list and a decoder
from byte list to Option T (none models a prost DecodeError).

The connection is modelled by the byte list it still has to deliver to the
reader, and, on the writer side, by a script of poll_write outcomes.  The
reader's fill loop greedily moves bytes from the connection into the buffer
until the target size is reached; chunk granularity does not affect any
observable outcome, so fill is modelled as moving exactly the bytes still
needed (or everything that is left, when that is less).
-/

namespace AsyncProst

deriving instance DecidableEq for Except

/-- Errors the reader can surface: a broken-pipe transport error
(io::ErrorKind::BrokenPipe, reader.rs line 140) or a prost decode error
(reader.rs line 97). -/
inductive RdErr
  | brokenPipe
  | decodeError
  deriving DecidableEq, Repr

/-- Result of the fill loop (reader.rs lines 17-20). -/
inductive FillResult
  | filled
  | eof
  deriving DecidableEq, Repr

/-- Reads a big-endian unsigned 32-bit integer from the first four bytes,
as NetworkEndian::read_u32 does in reader.rs line 90. -/
def readU32BE (l : List Nat) : Nat :=
  2 ^ 24 * l.getD 0 0 + 2 ^ 16 * l.getD 1 0 + 2 ^ 8 * l.getD 2 0 + l.getD 3 0

/-- AsyncProstReader::fill (reader.rs lines 108-150).  The state is the pair
of the pending buffer and the bytes the connection still delivers.  If the
buffer already holds target bytes nothing happens; otherwise bytes move from
the connection into the buffer.  A zero-byte read (the connection exhausted
before the target was reached) yields Eof when the pending buffer is empty
and a BrokenPipe error otherwise (reader.rs lines 136-141). -/
def fill (b i : List Nat) (target : Nat) :
    Except RdErr FillResult × List Nat × List Nat :=
  if target ≤ b.length then (Except.ok FillResult.filled, b, i)
  else if target ≤ b.length + i.length then
    (Except.ok FillResult.filled,
      b ++ i.take (target - b.length), i.drop (target - b.length))
  else if b.length + i.length = 0 then (Except.ok FillResult.eof, [], [])
  else (Except.error RdErr.brokenPipe, b ++ i, [])

/-- AsyncProstReader::poll_next (reader.rs lines 84-100).  First fills the
buffer up to 5 bytes (the literal 5 of reader.rs line 86, flagged there with
a FIXME), returning clean end-of-stream on Eof; then reads the 4-byte
big-endian length prefix, fills up to length + 4 bytes, drops the prefix,
decodes the body, and drops the body.  On a decode failure the error is
returned before the body bytes are dropped (the early return at reader.rs
line 97 happens before the advance of line 98). -/
def pollNext (dec : List Nat → Option T) (b i : List Nat) :
    Except RdErr (Option T) × List Nat × List Nat :=
  match fill b i 5 with
  | (Except.error e, b1, i1) => (Except.error e, b1, i1)
  | (Except.ok FillResult.eof, b1, i1) => (Except.ok none, b1, i1)
  | (Except.ok FillResult.filled, b1, i1) =>
    let message_size := readU32BE b1
    match fill b1 i1 (message_size + 4) with
    | (Except.error e, b2, i2) => (Except.error e, b2, i2)
    | (Except.ok _, b2, i2) =>
      let b3 := b2.drop 4
      match dec (b3.take message_size) with
      | none => (Except.error RdErr.decodeError, b3, i2)
      | some msg => (Except.ok (some msg), b3.drop message_size, i2)

/-- How a drive of the reader to completion ends. -/
inductive ReadEnd
  | cleanEof
  | errored (e : RdErr)
  | outOfFuel
  deriving DecidableEq, Repr

/-- Drives poll_next repeatedly, collecting the decoded values in order,
until clean end-of-stream or an error.  The fuel bounds the number of
poll_next calls; any fuel larger than the number of messages suffices. -/
def readAll (dec : List Nat → Option T) : Nat → List Nat → List Nat → List T × ReadEnd
  | 0, _, _ => ([], ReadEnd.outOfFuel)
  | fuel + 1, b, i =>
    match pollNext dec b i with
    | (Except.error e, _, _) => ([], ReadEnd.errored e)
    | (Except.ok none, _, _) => ([], ReadEnd.cleanEof)
    | (Except.ok (some v), b2, i2) =>
      let rest := readAll dec fuel b2 i2
      (v :: rest.1, rest.2)

/-- Writer state (writer.rs lines 16-22): the pending byte buffer and the
cursor of already flushed leading bytes. -/
structure WState where
  buffer : List Nat
  written : Nat
  deriving DecidableEq, Repr

/-- Big-endian 4-byte encoding of a 32-bit value, as
write_u32::NetworkEndian in writer.rs line 107. -/
def toBE32 (n : Nat) : List Nat :=
  [n / 2 ^ 24 % 256, n / 2 ^ 16 % 256, n / 2 ^ 8 % 256, n % 256]

/-- AsyncProstWriter::append for the AsyncDestination marker
(writer.rs lines 101-111): appends the 4-byte big-endian encoded length
(encoded_len as u32, hence modulo 2^32) followed by the encoded bytes.
This is what Sink::start_send does (writer.rs line 147). -/
def append (enc : T → List Nat) (w : WState) (item : T) : WState :=
  ⟨w.buffer ++ toBE32 ((enc item).length % 2 ^ 32) ++ enc item, w.written⟩

/-- One poll_write outcome of the underlying connection: the number of bytes
it accepted, or an error. -/
abbrev WriteStep := Except Unit Nat

/-- How the drain loop of poll_flush ends: cursor reached the end of the
buffer, the connection was not ready (the script ran out), or an underlying
write error. -/
inductive DrainRes
  | done
  | pend
  | errored
  deriving DecidableEq, Repr

/-- The drain loop of AsyncProstWriter::poll_flush (writer.rs lines
154-158): while the cursor has not reached the buffer length, poll_write
the buffer suffix from the cursor and advance the cursor by the accepted
count.  Returns the loop outcome, the final state, and the bytes handed to
the connection. -/
def drain : List WriteStep → WState → DrainRes × WState × List Nat
  | [], st =>
    if st.written = st.buffer.length then (DrainRes.done, st, [])
    else (DrainRes.pend, st, [])
  | Except.error _ :: _, st =>
    if st.written = st.buffer.length then (DrainRes.done, st, [])
    else (DrainRes.errored, st, [])
  | Except.ok n :: rest, st =>
    if st.written = st.buffer.length then (DrainRes.done, st, [])
    else
      let out := (st.buffer.drop st.written).take n
      let r := drain rest ⟨st.buffer, st.written + n⟩
      (r.1, r.2.1, out ++ r.2.2)

/-- Outcome of a poll: ready with a result, or pending. -/
inductive WPoll
  | ready (r : Except Unit Unit)
  | pending
  deriving DecidableEq, Repr

/-- AsyncProstWriter::poll_flush (writer.rs lines 150-164): drain the
buffer; on a write error surface it, on not-ready suspend; once the cursor
reaches the buffer length, clear the buffer, reset the cursor to zero, and
return the underlying connection flush result fres (the clear of lines
161-162 happens before the underlying poll_flush of line 163 completes). -/
def pollFlush (scr : List WriteStep) (fres : WPoll) (st : WState) :
    WPoll × WState :=
  match drain scr st with
  | (DrainRes.errored, st2, _) => (WPoll.ready (Except.error ()), st2)
  | (DrainRes.pend, st2, _) => (WPoll.pending, st2)
  | (DrainRes.done, _, _) => (fres, ⟨[], 0⟩)

/-- Bool script validity: each accepted write count is at most the length of
the buffer suffix past the cursor at that point (the poll_write contract). -/
def scriptOK : List WriteStep → Nat → Nat → Bool
  | [], _, _ => true
  | Except.error _ :: rest, w, len => scriptOK rest w len
  | Except.ok n :: rest, w, len => decide (n ≤ len - w) && scriptOK rest (w + n) len

/-- State of an AsyncProstStream (stream.rs lines 24-26): the reader's
pending buffer and the writer's pending buffer and cursor. -/
structure SState where
  rbuf : List Nat
  wbuf : List Nat
  written : Nat
  deriving DecidableEq, Repr

/-- AsyncProstStream::tcp_split (stream.rs lines 118-145): steals the
reader's buffer (buffer.split() leaves it empty), steals the writer's
buffer (split_off(0) leaves it empty) and copies the cursor, and hands them
to the freshly built reader and writer halves.  Returns the reader half's
buffer, the writer half's state, and the husk left behind. -/
def tcp_split (s : SState) : (List Nat × WState) × SState :=
  ((s.rbuf, ⟨s.wbuf, s.written⟩), ⟨[], [], s.written⟩)

/-- Decoded frame (frame.rs lines 7-14): an optional header and an optional
body, the body being either raw bytes (Either::Left) or a decoded typed
value (Either::Right). -/
structure Frame (H T : Type) where
  header : Option H
  body : Option (Sum (List Nat) T)
  deriving DecidableEq, Repr

/-- Frame::decode (frame.rs lines 55-81).  hdefault is H::default(), hdec
the header codec, shall the ShallDecodeBody predicate, bdec the body codec.
When header_len is positive the first header_len bytes decode to the
header, whose predicate decides whether the remainder is decoded eagerly
(Sum.inr) or stored verbatim (Sum.inl); when header_len is zero the header
is set to H::default() and the whole payload is always decoded. -/
def Frame.decode (hdefault : H) (hdec : List Nat → Option H) (shall : H → Bool)
    (bdec : List Nat → Option T) (buf : List Nat) (header_len : Nat) :
    Except Unit (Frame H T) :=
  if 0 < header_len then
    match hdec (buf.take header_len) with
    | none => Except.error ()
    | some header =>
      if shall header then
        match bdec (buf.drop header_len) with
        | none => Except.error ()
        | some msg => Except.ok ⟨some header, some (Sum.inr msg)⟩
      else Except.ok ⟨some header, some (Sum.inl (buf.drop header_len))⟩
  else
    match bdec (buf.drop header_len) with
    | none => Except.error ()
    | some msg => Except.ok ⟨some hdefault, some (Sum.inr msg)⟩

/-- Frame::encoded_len (frame.rs lines 83-99): the header's encoded length
truncated to a u8 (hence modulo 256) shifted into the high 8 bits, or-ed
with the body length truncated to a u32 (hence modulo 2^32). -/
def Frame.encoded_len (hlen : H → Nat) (blen : T → Nat) (fr : Frame H T) : Nat :=
  let header_len :=
    match fr.header with
    | some h => hlen h % 256
    | none => 0
  let body_len :=
    match fr.body with
    | some (Sum.inl v) => v.length % 2 ^ 32
    | some (Sum.inr v) => blen v % 2 ^ 32
    | none => 0
  (header_len <<< 24) ||| body_len

/-- The untruncated body byte length of a frame: the raw byte count for an
Either::Left body, the encoded length for an Either::Right body, zero when
absent. -/
def Frame.bodyLen (blen : T → Nat) (fr : Frame H T) : Nat :=
  match fr.body with
  | some (Sum.inl v) => v.length
  | some (Sum.inr v) => blen v
  | none => 0

/-- Frame::encode (frame.rs lines 101-122): header bytes (if any) followed
by the body bytes.  A frame without a body hits the unreachable! of line
117, modelled as none. -/
def Frame.encode (henc : H → List Nat) (benc : T → List Nat) (fr : Frame H T) :
    Option (List Nat) :=
  let hbytes :=
    match fr.header with
    | some h => henc h
    | none => []
  match fr.body with
  | some (Sum.inl v) => some (hbytes ++ v)
  | some (Sum.inr v) => some (hbytes ++ benc v)
  | none => none

/-- The byte stream the ASYNC writer produces for a list of values: for
each value the 4-byte big-endian length prefix followed by its encoding. -/
def frames (enc : T → List Nat) : List T → List Nat
  | [] => []
  | v :: rest => toBE32 ((enc v).length % 2 ^ 32) ++ enc v ++ frames enc rest

theorem length_toBE32 (n : Nat) : (toBE32 n).length = 4 := rfl

theorem readU32BE_toBE32 (n : Nat) (rest : List Nat) (h : n < 2 ^ 32) :
    readU32BE (toBE32 n ++ rest) = n := by
  simp only [readU32BE, toBE32, List.cons_append, List.getD_cons_zero, List.getD_cons_succ]
  omega

theorem readU32BE_take (l : List Nat) (m : Nat) (h : 4 ≤ m) :
    readU32BE (l.take m) = readU32BE l := by
  simp only [readU32BE, List.getD_eq_getElem?_getD]
  rw [List.getElem?_take_of_lt (by omega), List.getElem?_take_of_lt (by omega),
    List.getElem?_take_of_lt (by omega), List.getElem?_take_of_lt (by omega)]

theorem fill_filled (b i : List Nat) (t : Nat) (h : t ≤ b.length + i.length) :
    fill b i t = (Except.ok FillResult.filled,
      (b ++ i).take (max b.length t), (b ++ i).drop (max b.length t)) := by
  unfold fill
  by_cases h1 : t ≤ b.length
  · rw [if_pos h1, max_eq_left h1, List.take_left, List.drop_left]
  · have h2 : b.length ≤ t := by omega
    rw [if_neg h1, if_pos h, max_eq_right h2]
    simp [List.take_append_eq_append_take, List.drop_append_eq_append_drop,
      List.take_of_length_le h2, List.drop_of_length_le h2]

theorem fill_err (b i : List Nat) (t : Nat) (h1 : b.length + i.length < t)
    (h2 : b.length + i.length ≠ 0) :
    fill b i t = (Except.error RdErr.brokenPipe, b ++ i, []) := by
  unfold fill
  rw [if_neg (by omega), if_neg (by omega), if_neg h2]

theorem pollNext_eof (dec : List Nat → Option T) :
    pollNext dec [] [] = (Except.ok none, [], []) := rfl

theorem pollNext_short (dec : List Nat → Option T) (b i : List Nat)
    (h1 : b.length + i.length ≠ 0) (h2 : b.length + i.length < 5) :
    pollNext dec b i = (Except.error RdErr.brokenPipe, b ++ i, []) := by
  unfold pollNext
  rw [fill_err b i 5 h2 h1]

theorem drop_take_drop (s : List Nat) (k m : Nat) (hk : k ≤ m) :
    (s.take m).drop k ++ s.drop m = s.drop k := by
  rw [List.drop_take]
  have h2 : s.drop m = (s.drop k).drop (m - k) := by
    rw [List.drop_drop]
    congr 1
    omega
  rw [h2]
  exact List.take_append_drop (m - k) (s.drop k)

theorem pollNext_truncated (dec : List Nat → Option T) (b i : List Nat)
    (h5 : 5 ≤ b.length + i.length)
    (hsz : b.length + i.length < readU32BE (b ++ i) + 4) :
    (pollNext dec b i).1 = Except.error RdErr.brokenPipe := by
  have hL : (b ++ i).length = b.length + i.length := List.length_append b i
  have h4 : (4 : Nat) ≤ max b.length 5 := by omega
  have hM1 : max b.length 5 ≤ (b ++ i).length := by omega
  have hlen1 : ((b ++ i).take (max b.length 5)).length = max b.length 5 := by
    simp only [List.length_take]
    omega
  unfold pollNext
  rw [fill_filled b i 5 h5]
  dsimp only
  rw [readU32BE_take _ _ h4]
  rw [fill_err _ _ _ (by simp only [hlen1, List.length_drop]; omega)
    (by simp only [hlen1, List.length_drop]; omega)]

theorem pollNext_decode (dec : List Nat → Option T) (b i : List Nat)
    (h5 : 5 ≤ b.length + i.length)
    (hsz : readU32BE (b ++ i) + 4 ≤ b.length + i.length) :
    pollNext dec b i =
      match dec (((b ++ i).drop 4).take (readU32BE (b ++ i))) with
      | none => (Except.error RdErr.decodeError,
          ((b ++ i).take (max (max b.length 5) (readU32BE (b ++ i) + 4))).drop 4,
          (b ++ i).drop (max (max b.length 5) (readU32BE (b ++ i) + 4)))
      | some v => (Except.ok (some v),
          (((b ++ i).take (max (max b.length 5) (readU32BE (b ++ i) + 4))).drop 4).drop
            (readU32BE (b ++ i)),
          (b ++ i).drop (max (max b.length 5) (readU32BE (b ++ i) + 4))) := by
  have hL : (b ++ i).length = b.length + i.length := List.length_append b i
  have h4 : (4 : Nat) ≤ max b.length 5 := by omega
  have hM1 : max b.length 5 ≤ (b ++ i).length := by omega
  have hlen1 : ((b ++ i).take (max b.length 5)).length = max b.length 5 := by
    simp only [List.length_take]
    omega
  unfold pollNext
  rw [fill_filled b i 5 h5]
  dsimp only
  rw [readU32BE_take _ _ h4]
  rw [fill_filled _ _ _ (by simp only [hlen1, List.length_drop]; omega)]
  rw [List.take_append_drop, hlen1]
  dsimp only
  have harg : (((b ++ i).take (max (max b.length 5) (readU32BE (b ++ i) + 4))).drop 4).take
      (readU32BE (b ++ i)) = ((b ++ i).drop 4).take (readU32BE (b ++ i)) := by
    rw [List.drop_take, List.take_take]
    congr 1
    omega
  rw [harg]

theorem pollNext_decode_ok (dec : List Nat → Option T) (b i : List Nat) (v : T)
    (h5 : 5 ≤ b.length + i.length)
    (hsz : readU32BE (b ++ i) + 4 ≤ b.length + i.length)
    (hdec : dec (((b ++ i).drop 4).take (readU32BE (b ++ i))) = some v) :
    (pollNext dec b i).1 = Except.ok (some v) ∧
    (pollNext dec b i).2.1 ++ (pollNext dec b i).2.2
      = (b ++ i).drop (4 + readU32BE (b ++ i)) := by
  rw [pollNext_decode dec b i h5 hsz, hdec]
  refine ⟨rfl, ?_⟩
  dsimp only
  rw [List.drop_drop]
  exact drop_take_drop _ _ _ (by omega)

theorem pollNext_decode_err (dec : List Nat → Option T) (b i : List Nat)
    (h5 : 5 ≤ b.length + i.length)
    (hsz : readU32BE (b ++ i) + 4 ≤ b.length + i.length)
    (hdec : dec (((b ++ i).drop 4).take (readU32BE (b ++ i))) = none) :
    (pollNext dec b i).1 = Except.error RdErr.decodeError ∧
    (pollNext dec b i).2.1 ++ (pollNext dec b i).2.2 = (b ++ i).drop 4 := by
  rw [pollNext_decode dec b i h5 hsz, hdec]
  refine ⟨rfl, ?_⟩
  dsimp only
  exact drop_take_drop _ _ _ (by omega)

theorem readAll_succ (dec : List Nat → Option T) (fuel : Nat) (b i : List Nat) :
    readAll dec (fuel + 1) b i =
      match pollNext dec b i with
      | (Except.error e, _, _) => ([], ReadEnd.errored e)
      | (Except.ok none, _, _) => ([], ReadEnd.cleanEof)
      | (Except.ok (some v), b2, i2) =>
        (v :: (readAll dec fuel b2 i2).1, (readAll dec fuel b2 i2).2) := rfl

theorem foldl_append_state (enc : T → List Nat) (V : List T) :
    ∀ w : WState, (V.foldl (append enc) w).buffer = w.buffer ++ frames enc V ∧
      (V.foldl (append enc) w).written = w.written := by
  induction V with
  | nil => intro w; simp [frames]
  | cons v rest ih =>
    intro w
    simp only [List.foldl_cons, frames]
    obtain ⟨h1, h2⟩ := ih (append enc w v)
    rw [h1, h2]
    simp [append, List.append_assoc]

theorem drain_full (buf : List Nat) :
    drain [Except.ok buf.length] ⟨buf, 0⟩ = (DrainRes.done, ⟨buf, buf.length⟩, buf) := by
  cases buf with
  | nil => rfl
  | cons a l =>
    simp [drain, List.drop_zero]

theorem readAll_frames (enc : T → List Nat) (dec : List Nat → Option T) :
    ∀ (V : List T) (b i : List Nat), b ++ i = frames enc V →
      (∀ v ∈ V, dec (enc v) = some v) →
      (∀ v ∈ V, (enc v).length < 2 ^ 32) →
      (∀ v, V.getLast? = some v → enc v ≠ []) →
      readAll dec (V.length + 1) b i = (V, ReadEnd.cleanEof) := by
  intro V
  induction V with
  | nil =>
    intro b i hbi _ _ _
    simp only [frames] at hbi
    obtain ⟨hb, hi⟩ := List.append_eq_nil.mp hbi
    subst hb
    subst hi
    rfl
  | cons v rest ih =>
    intro b i hbi hdec hlen hlast
    have he : (enc v).length < 2 ^ 32 := hlen v (by simp)
    have hmod : (enc v).length % 2 ^ 32 = (enc v).length := Nat.mod_eq_of_lt he
    have hbi2 : b ++ i = toBE32 (enc v).length ++ (enc v ++ frames enc rest) := by
      simp only [frames, hmod, List.append_assoc] at hbi
      exact hbi
    have hLen : b.length + i.length = 4 + ((enc v).length + (frames enc rest).length) := by
      have hc := congrArg List.length hbi2
      simp only [List.length_append, length_toBE32] at hc
      omega
    have hpos : 1 ≤ (enc v).length + (frames enc rest).length := by
      cases rest with
      | nil =>
        have hne : enc v ≠ [] := hlast v (by simp)
        have : (enc v).length ≠ 0 := by
          simpa [List.length_eq_zero] using hne
        omega
      | cons w t =>
        have h4 : 4 ≤ (frames enc (w :: t)).length := by
          simp only [frames, List.append_assoc, List.length_append, length_toBE32]
          omega
        omega
    have hread : readU32BE (b ++ i) = (enc v).length := by
      rw [hbi2]
      exact readU32BE_toBE32 _ _ he
    have h5 : 5 ≤ b.length + i.length := by omega
    have hsz : readU32BE (b ++ i) + 4 ≤ b.length + i.length := by
      rw [hread]
      omega
    have hdecv : dec (((b ++ i).drop 4).take (readU32BE (b ++ i))) = some v := by
      rw [hread, hbi2, List.drop_left' (length_toBE32 _), List.take_left' rfl]
      exact hdec v (by simp)
    obtain ⟨h1, h2⟩ := pollNext_decode_ok dec b i v h5 hsz hdecv
    rcases hpn : pollNext dec b i with ⟨r, b2, i2⟩
    rw [hpn] at h1 h2
    dsimp only at h1 h2
    subst h1
    have hcomb : b2 ++ i2 = frames enc rest := by
      rw [hread, hbi2, ← List.append_assoc] at h2
      have hlen2 : (toBE32 (enc v).length ++ enc v).length = 4 + (enc v).length := by
        simp [List.length_append, length_toBE32]
      rw [h2, List.drop_left' hlen2]
    have hrestlast : ∀ u, rest.getLast? = some u → enc u ≠ [] := by
      intro u hu
      cases rest with
      | nil => simp at hu
      | cons w t =>
        exact hlast u (by rw [List.getLast?_cons_cons]; exact hu)
    have hrest := ih b2 i2 hcomb (fun u hu => hdec u (by simp [hu]))
      (fun u hu => hlen u (by simp [hu])) hrestlast
    have hfuel : (v :: rest).length + 1 = rest.length + 1 + 1 := by simp
    rw [hfuel, readAll_succ, hpn]
    dsimp only
    rw [hrest]

theorem drain_done (scr : List WriteStep) (st : WState)
    (h : st.written = st.buffer.length) :
    drain scr st = (DrainRes.done, st, []) := by
  cases scr with
  | nil => simp [drain, h]
  | cons s r =>
    cases s with
    | error e => simp [drain, h]
    | ok n => simp [drain, h]

theorem drain_spec : ∀ (scr : List WriteStep) (st : WState),
    scriptOK scr st.written st.buffer.length = true →
    st.written ≤ st.buffer.length →
    (drain scr st).2.1.buffer = st.buffer ∧
    (drain scr st).2.1.written ≤ st.buffer.length ∧
    ((drain scr st).1 = DrainRes.done →
      (drain scr st).2.1.written = st.buffer.length ∧
      (drain scr st).2.2 = st.buffer.drop st.written) := by
  intro scr
  induction scr with
  | nil =>
    intro st hok hle
    by_cases h : st.written = st.buffer.length
    · rw [drain_done _ _ h]
      exact ⟨rfl, le_of_eq h,
        fun _ => ⟨h, by rw [List.drop_of_length_le (le_of_eq h.symm)]⟩⟩
    · exact ⟨by simp [drain, h], by simp [drain, h, hle],
        fun hd => by simp [drain, h] at hd⟩
  | cons step rest ih =>
    intro st hok hle
    by_cases h : st.written = st.buffer.length
    · rw [drain_done _ _ h]
      exact ⟨rfl, le_of_eq h,
        fun _ => ⟨h, by rw [List.drop_of_length_le (le_of_eq h.symm)]⟩⟩
    · cases step with
      | error e =>
        exact ⟨by simp [drain, h], by simp [drain, h, hle],
          fun hd => by simp [drain, h] at hd⟩
      | ok n =>
        simp only [scriptOK, Bool.and_eq_true, decide_eq_true_eq] at hok
        have hn : n ≤ st.buffer.length - st.written := hok.1
        have hle2 : st.written + n ≤ st.buffer.length := by omega
        have ih2 := ih ⟨st.buffer, st.written + n⟩ hok.2 hle2
        obtain ⟨ihb, ihw, ihd⟩ := ih2
        simp only [drain, if_neg h]
        refine ⟨ihb, ihw, fun hdone => ?_⟩
        obtain ⟨hwr, hout⟩ := ihd hdone
        refine ⟨hwr, ?_⟩
        rw [hout]
        have hdd : List.drop (st.written + n) st.buffer
            = (st.buffer.drop st.written).drop n := by
          rw [List.drop_drop]
        rw [hdd]
        exact List.take_append_drop n _

theorem pollFlush_cases (scr : List WriteStep) (fres : WPoll) (st : WState) :
    pollFlush scr fres st =
      match (drain scr st).1 with
      | DrainRes.done => (fres, ⟨[], 0⟩)
      | DrainRes.pend => (WPoll.pending, (drain scr st).2.1)
      | DrainRes.errored => (WPoll.ready (Except.error ()), (drain scr st).2.1) := by
  unfold pollFlush
  rcases h : drain scr st with ⟨r, st2, out⟩
  cases r <;> rfl

theorem shiftLeft24_lor_eq_add (a b : Nat) (hb : b < 2 ^ 24) :
    (a <<< 24) ||| b = a * 2 ^ 24 + b := by
  apply Nat.eq_of_testBit_eq
  intro j
  rw [Nat.testBit_or, Nat.testBit_shiftLeft]
  rw [show a * 2 ^ 24 + b = 2 ^ 24 * a + b from by ring,
    Nat.testBit_mul_pow_two_add a hb j]
  by_cases hj : j < 24
  · simp [hj, Nat.not_le_of_lt hj]
  · have h24 : 24 ≤ j := Nat.le_of_not_lt hj
    have hbj : b.testBit j = false :=
      Nat.testBit_lt_two_pow (lt_of_lt_of_le hb (Nat.pow_le_pow_right (by norm_num) h24))
    simp [hj, h24, hbj]

/-- C1 (amended): for every finite sequence of values V whose final value has a
non-empty encoding, appending each value with the ASYNC-mode writer produces
exactly the length-prefixed frame concatenation, flushing that buffer hands
exactly those bytes to the connection, and feeding them to the reader yields
exactly V in order followed by clean end-of-sequence.  The non-empty-final
condition is forced by the literal 5 in reader.rs line 86: a trailing
message of body length 0 occupies only 4 bytes and the reader errors on it
instead of yielding it. -/
theorem C1_roundtrip_amended (enc : T → List Nat) (dec : List Nat → Option T) (V : List T)
    (hdec : ∀ v ∈ V, dec (enc v) = some v)
    (hlen : ∀ v ∈ V, (enc v).length < 2 ^ 32)
    (hlast : ∀ v, V.getLast? = some v → enc v ≠ []) :
    (V.foldl (append enc) ⟨[], 0⟩).buffer = frames enc V ∧
    drain [Except.ok (frames enc V).length] ⟨frames enc V, 0⟩
      = (DrainRes.done, ⟨frames enc V, (frames enc V).length⟩, frames enc V) ∧
    readAll dec (V.length + 1) [] (frames enc V) = (V, ReadEnd.cleanEof) := by
  refine ⟨?_, drain_full _, ?_⟩
  · have h := foldl_append_state enc V ⟨[], 0⟩
    simpa using h.1
  · exact readAll_frames enc dec V [] (frames enc V) rfl hdec hlen hlast

/-- C1 witness: the amended round trip evaluated for the single value with
encoding 7 7 7 7 7. -/
theorem C1_roundtrip_amended_witness :
    (([[7, 7, 7, 7, 7]] : List (List Nat)).foldl (append (fun l => l)) ⟨[], 0⟩).buffer
        = frames (fun l : List Nat => l) [[7, 7, 7, 7, 7]] ∧
    drain [Except.ok (frames (fun l : List Nat => l) [[7, 7, 7, 7, 7]]).length]
        ⟨frames (fun l : List Nat => l) [[7, 7, 7, 7, 7]], 0⟩
      = (DrainRes.done, ⟨frames (fun l : List Nat => l) [[7, 7, 7, 7, 7]],
          (frames (fun l : List Nat => l) [[7, 7, 7, 7, 7]]).length⟩,
          frames (fun l : List Nat => l) [[7, 7, 7, 7, 7]]) ∧
    readAll (fun l : List Nat => some l) (([[7, 7, 7, 7, 7]] : List (List Nat)).length + 1)
        [] (frames (fun l : List Nat => l) [[7, 7, 7, 7, 7]])
      = ([[7, 7, 7, 7, 7]], ReadEnd.cleanEof) :=
  C1_roundtrip_amended (fun l => l) (fun l => some l) [[7, 7, 7, 7, 7]]
    (by decide) (by decide)
    (fun v hv => by
      rw [List.getLast?_singleton] at hv
      injection hv with h
      subst h
      decide)

/-- C1 counterexample: the round trip as claimed, quantified over all V,
fails for the singleton sequence whose value encodes to the empty byte
string (every prost message in its default state does): the writer emits
the 4 bytes 0 0 0 0, and the reader, needing 5 buffered bytes before it
even reads the length prefix, hits the zero-byte read with a non-empty
buffer and returns a broken-pipe error instead of the value followed by
clean end-of-sequence. -/
theorem C1_roundtrip_counterexample :
    (([[]] : List (List Nat)).foldl (append (fun l => l)) ⟨[], 0⟩).buffer = [0, 0, 0, 0] ∧
    readAll (fun l : List Nat => some l) 2 [] [0, 0, 0, 0]
      = ([], ReadEnd.errored RdErr.brokenPipe) ∧
    ¬ readAll (fun l : List Nat => some l) 2 [] [0, 0, 0, 0]
        = ([[]], ReadEnd.cleanEof) := by
  exact ⟨rfl, rfl, by decide⟩

/-- C2: scenario A evaluated on the code.  The ASYNC writer accepting three
values of encoded lengths 5, 13 and 0 produces exactly the claimed bytes,
but the reader fed those bytes yields only the first two values and then a
broken-pipe error: the trailing zero-length message occupies 4 bytes while
poll_next insists on 5 buffered bytes (reader.rs line 86), so the third
value and the clean end-of-sequence claimed by the spec never happen. -/
theorem C2_scenarioA_failing :
    (([[1, 2, 3, 4, 5], [6, 7, 8, 9, 10, 11, 12, 13, 14, 15, 16, 17, 18], []] :
        List (List Nat)).foldl (append (fun l => l)) ⟨[], 0⟩).buffer
      = [0, 0, 0, 5] ++ [1, 2, 3, 4, 5] ++ [0, 0, 0, 13]
          ++ [6, 7, 8, 9, 10, 11, 12, 13, 14, 15, 16, 17, 18] ++ [0, 0, 0, 0] ∧
    readAll (fun l : List Nat => some l) 4 []
        ([0, 0, 0, 5] ++ [1, 2, 3, 4, 5] ++ [0, 0, 0, 13]
          ++ [6, 7, 8, 9, 10, 11, 12, 13, 14, 15, 16, 17, 18] ++ [0, 0, 0, 0])
      = ([[1, 2, 3, 4, 5], [6, 7, 8, 9, 10, 11, 12, 13, 14, 15, 16, 17, 18]],
          ReadEnd.errored RdErr.brokenPipe) := by
  exact ⟨rfl, rfl⟩

/-- C3: a zero-byte read with an empty pending buffer is clean
end-of-sequence, and delivering any strict prefix of 1 up to 4+N-1 bytes of
a message with body length N makes poll_next return the broken-pipe
transport error, never a value. -/
theorem C3_clean_eof_vs_truncation (dec : List Nat → Option T) (N : Nat) (body : List Nat)
    (hbody : body.length = N) (hN : N < 2 ^ 32) :
    pollNext dec [] [] = (Except.ok none, [], []) ∧
    ∀ k, 1 ≤ k → k < 4 + N →
      (pollNext dec [] ((toBE32 N ++ body).take k)).1 = Except.error RdErr.brokenPipe := by
  refine ⟨pollNext_eof dec, fun k h1 h2 => ?_⟩
  have hlenfull : (toBE32 N ++ body).length = 4 + N := by
    simp [List.length_append, length_toBE32, hbody]
  have hlen : ((toBE32 N ++ body).take k).length = k := by
    simp only [List.length_take, hlenfull]
    omega
  by_cases h5 : k < 5
  · have h := pollNext_short dec [] ((toBE32 N ++ body).take k)
      (by simp only [List.length_nil, hlen, Nat.zero_add]; omega)
      (by simp only [List.length_nil, hlen, Nat.zero_add]; omega)
    rw [h]
  · have h5b : 5 ≤ k := by omega
    have hread : readU32BE ([] ++ (toBE32 N ++ body).take k) = N := by
      simp only [List.nil_append]
      rw [readU32BE_take _ _ (by omega)]
      exact readU32BE_toBE32 N body hN
    apply pollNext_truncated
    · simp only [List.length_nil, hlen, Nat.zero_add]
      omega
    · rw [hread]
      simp only [List.length_nil, hlen, Nat.zero_add]
      omega

/-- C3 witness: the clean-EOF half at the empty stream, and the truncation
half for a body of length 2 cut off after 3 of its 6 bytes. -/
theorem C3_clean_eof_vs_truncation_witness :
    pollNext (fun l : List Nat => some l) [] [] = (Except.ok none, [], []) ∧
    (pollNext (fun l : List Nat => some l) [] ((toBE32 2 ++ [7, 7]).take 3)).1
      = Except.error RdErr.brokenPipe :=
  ⟨(C3_clean_eof_vs_truncation (fun l : List Nat => some l) 2 [7, 7] rfl (by decide)).1,
    (C3_clean_eof_vs_truncation (fun l : List Nat => some l) 2 [7, 7] rfl (by decide)).2
      3 (by decide) (by decide)⟩

/-- C4 (amended): when the buffered body of a message fails to decode the
reader surfaces the decode error and leaves the connection open, but only
the 4-byte length prefix has been consumed: the malformed body bytes stay
at the front of the buffer, so subsequent poll_next calls reinterpret them
as the next length prefix instead of resuming at the following message. -/
theorem C4_decode_error_amended (dec : List Nat → Option T) (s : List Nat)
    (h5 : 5 ≤ s.length)
    (hsz : readU32BE s + 4 ≤ s.length)
    (hdec : dec ((s.drop 4).take (readU32BE s)) = none) :
    (pollNext dec [] s).1 = Except.error RdErr.decodeError ∧
    (pollNext dec [] s).2.1 ++ (pollNext dec [] s).2.2 = s.drop 4 := by
  have h := pollNext_decode_err dec [] s (by simpa using h5) (by simpa using hsz)
    (by simpa using hdec)
  simpa using h

/-- C4 witness: the amended statement evaluated on a stream whose first
message body 9 9 9 is malformed and is followed by a well-formed message. -/
theorem C4_decode_error_amended_witness :
    (pollNext (fun l : List Nat => if l = [9, 9, 9] then none else some l) []
        [0, 0, 0, 3, 9, 9, 9, 0, 0, 0, 5, 1, 2, 3, 4, 5]).1
      = Except.error RdErr.decodeError ∧
    (pollNext (fun l : List Nat => if l = [9, 9, 9] then none else some l) []
        [0, 0, 0, 3, 9, 9, 9, 0, 0, 0, 5, 1, 2, 3, 4, 5]).2.1
      ++ (pollNext (fun l : List Nat => if l = [9, 9, 9] then none else some l) []
        [0, 0, 0, 3, 9, 9, 9, 0, 0, 0, 5, 1, 2, 3, 4, 5]).2.2
      = [0, 0, 0, 3, 9, 9, 9, 0, 0, 0, 5, 1, 2, 3, 4, 5].drop 4 :=
  C4_decode_error_amended _ _ (by decide) (by decide) (by decide)

/-- C4 counterexample: after the decode error on the malformed body 9 9 9,
the body bytes are still buffered (only the prefix was consumed); the next
poll_next reads a length prefix out of 9 9 9 0 and fails with a broken-pipe
error instead of decoding the following well-formed message 1 2 3 4 5, so
the error is not fatal to the current message only. -/
theorem C4_resync_counterexample :
    (pollNext (fun l : List Nat => if l = [9, 9, 9] then none else some l) []
        [0, 0, 0, 3, 9, 9, 9, 0, 0, 0, 5, 1, 2, 3, 4, 5]).1
      = Except.error RdErr.decodeError ∧
    (pollNext (fun l : List Nat => if l = [9, 9, 9] then none else some l) []
        [0, 0, 0, 3, 9, 9, 9, 0, 0, 0, 5, 1, 2, 3, 4, 5]).2.1 = [9, 9, 9] ∧
    (pollNext (fun l : List Nat => if l = [9, 9, 9] then none else some l) []
        [0, 0, 0, 3, 9, 9, 9, 0, 0, 0, 5, 1, 2, 3, 4, 5]).2.2
      = [0, 0, 0, 5, 1, 2, 3, 4, 5] ∧
    (pollNext (fun l : List Nat => if l = [9, 9, 9] then none else some l)
        [9, 9, 9] [0, 0, 0, 5, 1, 2, 3, 4, 5]).1 = Except.error RdErr.brokenPipe ∧
    ¬ (pollNext (fun l : List Nat => if l = [9, 9, 9] then none else some l)
        [9, 9, 9] [0, 0, 0, 5, 1, 2, 3, 4, 5]).1 = Except.ok (some [1, 2, 3, 4, 5]) := by
  decide

/-- C5: tcp_split moves exactly the pending read-buffer bytes into the
reader half and exactly the pending write-buffer bytes and the cursor into
the writer half, leaving the husk empty, so driving either half produces
the same read-side message sequence and write-side byte stream as the
unsplit stream would have. -/
theorem C5_tcp_split_state_transfer (s : SState) (dec : List Nat → Option T)
    (i : List Nat) (fuel : Nat) (scr : List WriteStep) (fres : WPoll) :
    (tcp_split s).1.1 = s.rbuf ∧
    (tcp_split s).1.2.buffer = s.wbuf ∧
    (tcp_split s).1.2.written = s.written ∧
    readAll dec fuel (tcp_split s).1.1 i = readAll dec fuel s.rbuf i ∧
    pollFlush scr fres (tcp_split s).1.2 = pollFlush scr fres ⟨s.wbuf, s.written⟩ ∧
    (tcp_split s).2.rbuf = [] ∧
    (tcp_split s).2.wbuf = [] :=
  ⟨rfl, rfl, rfl, rfl, rfl, rfl, rfl⟩

/-- C6: when the first header_len bytes (header_len positive and within the
buffer) decode to a header, Frame decode stores the remainder verbatim as
raw bytes exactly when the predicate is false, eagerly decodes the
remainder into a typed body exactly when the predicate is true and the
remainder decodes, and propagates the decode error when the predicate is
true and the remainder is malformed. -/
theorem C6_frame_header_gating {H T : Type} (hdefault : H) (hdec : List Nat → Option H)
    (shall : H → Bool) (bdec : List Nat → Option T) (buf : List Nat) (header_len : Nat)
    (h : H) (hpos : 0 < header_len) (_hin : header_len ≤ buf.length)
    (hhdr : hdec (buf.take header_len) = some h) :
    (shall h = false →
      Frame.decode hdefault hdec shall bdec buf header_len
        = Except.ok ⟨some h, some (Sum.inl (buf.drop header_len))⟩) ∧
    (shall h = true → ∀ m, bdec (buf.drop header_len) = some m →
      Frame.decode hdefault hdec shall bdec buf header_len
        = Except.ok ⟨some h, some (Sum.inr m)⟩) ∧
    (shall h = true → bdec (buf.drop header_len) = none →
      Frame.decode hdefault hdec shall bdec buf header_len = Except.error ()) := by
  have hbase : Frame.decode hdefault hdec shall bdec buf header_len
      = if shall h then
          match bdec (buf.drop header_len) with
          | none => Except.error ()
          | some msg => Except.ok ⟨some h, some (Sum.inr msg)⟩
        else Except.ok ⟨some h, some (Sum.inl (buf.drop header_len))⟩ := by
    unfold Frame.decode
    rw [if_pos hpos, hhdr]
  refine ⟨fun hs => ?_, fun hs m hm => ?_, fun hs hm => ?_⟩
  · rw [hbase]
    simp [hs]
  · rw [hbase]
    simp [hs, hm]
  · rw [hbase]
    simp [hs, hm]

/-- C6 witness: a 1-byte header with tag 4 (even, so the predicate is true)
followed by the body bytes 104 105 decodes to a typed body holding those
bytes. -/
theorem C6_frame_header_gating_witness :
    Frame.decode (0 : Nat) (fun l => some (l.getD 0 0)) (fun n => n % 2 == 0)
        (fun l : List Nat => some l) [4, 104, 105] 1
      = Except.ok ⟨some 4, some (Sum.inr [104, 105])⟩ :=
  (C6_frame_header_gating 0 (fun l => some (l.getD 0 0)) (fun n => n % 2 == 0)
      (fun l : List Nat => some l) [4, 104, 105] 1 4 (by decide) (by decide)
      (by decide)).2.1 (by decide) [104, 105] (by decide)

/-- C7 counterexample: with header_len zero, Frame decode does not produce
a frame without a header as claimed; it produces a frame whose header is
the default header value (here 0, while the injected header codec would
have produced 1). -/
theorem C7_default_header_counterexample :
    Frame.decode (0 : Nat) (fun _ => some 1) (fun _ => true)
        (fun l : List Nat => some l) [5] 0
      = Except.ok ⟨some 0, some (Sum.inr [5])⟩ ∧
    ¬ Frame.decode (0 : Nat) (fun _ => some 1) (fun _ => true)
        (fun l : List Nat => some l) [5] 0
        = Except.ok ⟨none, some (Sum.inr [5])⟩ := by
  exact ⟨rfl, by decide⟩

/-- C7 (amended): with header_len zero no header bytes are consumed, the
frame's header field is set to the default header value (not left absent),
and the whole payload is always eagerly decoded as the typed body, the
decode error propagating if the payload is malformed. -/
theorem C7_zero_header_amended {H T : Type} (hdefault : H) (hdec : List Nat → Option H)
    (shall : H → Bool) (bdec : List Nat → Option T) (buf : List Nat) :
    Frame.decode hdefault hdec shall bdec buf 0
      = match bdec buf with
        | none => Except.error ()
        | some m => Except.ok ⟨some hdefault, some (Sum.inr m)⟩ := by
  unfold Frame.decode
  rw [if_neg (by omega), List.drop_zero]

/-- C8 counterexample: encoded_len truncates the header length to a u8, so
a frame whose header encodes to 256 bytes and whose body is empty packs to
the word 0, not to 256 shifted into the high bits as the claim requires
(the claimed word would not even fit in 32 bits). -/
theorem C8_encoded_len_counterexample :
    Frame.encoded_len (fun _ : Unit => 256) (fun _ : Unit => 0)
        ⟨some (), some (Sum.inl [])⟩ = 0 ∧
    ¬ Frame.encoded_len (fun _ : Unit => 256) (fun _ : Unit => 0)
        ⟨some (), some (Sum.inl [])⟩ = 256 * 2 ^ 24 + 0 := by
  exact ⟨rfl, by decide⟩

/-- C8 (amended): provided the header's encoded length is below 256 and the
body's byte length is below 2^24, encoded_len packs them losslessly: the
word equals header length times 2^24 plus body length, so its high 8 bits
are the header length and its low 24 bits are the body length. -/
theorem C8_encoded_len_amended {H T : Type} (hlen : H → Nat) (blen : T → Nat)
    (fr : Frame H T) (h : H)
    (hh : fr.header = some h)
    (hH : hlen h < 256)
    (hB : Frame.bodyLen blen fr < 2 ^ 24) :
    Frame.encoded_len hlen blen fr = hlen h * 2 ^ 24 + Frame.bodyLen blen fr ∧
    Frame.encoded_len hlen blen fr / 2 ^ 24 = hlen h ∧
    Frame.encoded_len hlen blen fr % 2 ^ 24 = Frame.bodyLen blen fr := by
  have hmain : Frame.encoded_len hlen blen fr
      = hlen h * 2 ^ 24 + Frame.bodyLen blen fr := by
    rcases hb : fr.body with _ | b
    · simp only [Frame.encoded_len, Frame.bodyLen, hh, hb]
      rw [Nat.mod_eq_of_lt hH, shiftLeft24_lor_eq_add _ _ (by norm_num)]
    · rcases b with v | v
      · have hv : v.length < 2 ^ 24 := by
          simpa [Frame.bodyLen, hb] using hB
        simp only [Frame.encoded_len, Frame.bodyLen, hh, hb]
        rw [Nat.mod_eq_of_lt hH, Nat.mod_eq_of_lt (lt_trans hv (by norm_num)),
          shiftLeft24_lor_eq_add _ _ hv]
      · have hv : blen v < 2 ^ 24 := by
          simpa [Frame.bodyLen, hb] using hB
        simp only [Frame.encoded_len, Frame.bodyLen, hh, hb]
        rw [Nat.mod_eq_of_lt hH, Nat.mod_eq_of_lt (lt_trans hv (by norm_num)),
          shiftLeft24_lor_eq_add _ _ hv]
  have e24 : (2 : Nat) ^ 24 = 16777216 := by norm_num
  refine ⟨hmain, ?_, ?_⟩
  · rw [hmain, e24]
    rw [e24] at hB
    omega
  · rw [hmain, e24]
    rw [e24] at hB
    omega

/-- C8 witness: a header of encoded length 2 and a typed body of encoded
length 5 pack to 2 times 2^24 plus 5. -/
theorem C8_encoded_len_amended_witness :
    Frame.encoded_len (fun _ : Unit => 2) (fun _ : Unit => 5)
        ⟨some (), some (Sum.inr ())⟩ = 2 * 2 ^ 24 + 5 ∧
    Frame.encoded_len (fun _ : Unit => 2) (fun _ : Unit => 5)
        ⟨some (), some (Sum.inr ())⟩ / 2 ^ 24 = 2 ∧
    Frame.encoded_len (fun _ : Unit => 2) (fun _ : Unit => 5)
        ⟨some (), some (Sum.inr ())⟩ % 2 ^ 24 = 5 :=
  C8_encoded_len_amended (fun _ : Unit => 2) (fun _ : Unit => 5)
    ⟨some (), some (Sum.inr ())⟩ () rfl (by decide) (by decide)

/-- C9 (amended): across the flush drain loop the cursor never exceeds the
buffer length and the buffer itself is never modified (in particular an
underlying write error leaves buffer and cursor accounting intact, the
cursor advanced only by previously accepted bytes); when the loop completes
the cursor equals the buffer length and exactly the pending suffix was
handed to the connection; and poll_flush clears the buffer and resets the
cursor exactly when the drain loop completes, doing so before the
underlying connection flush result is awaited. -/
theorem C9_write_buffer_invariant_amended (scr : List WriteStep) (st : WState)
    (hok : scriptOK scr st.written st.buffer.length = true)
    (hle : st.written ≤ st.buffer.length) :
    (drain scr st).2.1.buffer = st.buffer ∧
    (drain scr st).2.1.written ≤ st.buffer.length ∧
    ((drain scr st).1 = DrainRes.done →
      (drain scr st).2.1.written = st.buffer.length ∧
      (drain scr st).2.2 = st.buffer.drop st.written) ∧
    (∀ fres : WPoll,
      pollFlush scr fres st =
        match (drain scr st).1 with
        | DrainRes.done => (fres, ⟨[], 0⟩)
        | DrainRes.pend => (WPoll.pending, (drain scr st).2.1)
        | DrainRes.errored => (WPoll.ready (Except.error ()), (drain scr st).2.1)) := by
  obtain ⟨h1, h2, h3⟩ := drain_spec scr st hok hle
  exact ⟨h1, h2, h3, fun fres => pollFlush_cases scr fres st⟩

/-- C9 witness: the amended invariant evaluated for the buffer 5 6 7
drained by two writes accepting 2 and 1 bytes, the pending underlying
flush showing the buffer already cleared. -/
theorem C9_write_buffer_invariant_witness :
    (drain [Except.ok 2, Except.ok 1] ⟨[5, 6, 7], 0⟩).2.1.buffer = [5, 6, 7] ∧
    (drain [Except.ok 2, Except.ok 1] ⟨[5, 6, 7], 0⟩).2.1.written ≤ 3 ∧
    ((drain [Except.ok 2, Except.ok 1] ⟨[5, 6, 7], 0⟩).1 = DrainRes.done →
      (drain [Except.ok 2, Except.ok 1] ⟨[5, 6, 7], 0⟩).2.1.written = 3 ∧
      (drain [Except.ok 2, Except.ok 1] ⟨[5, 6, 7], 0⟩).2.2 = [5, 6, 7]) ∧
    pollFlush [Except.ok 2, Except.ok 1] WPoll.pending ⟨[5, 6, 7], 0⟩
      = (WPoll.pending, ⟨[], 0⟩) := by
  have h := C9_write_buffer_invariant_amended [Except.ok 2, Except.ok 1] ⟨[5, 6, 7], 0⟩
    (by decide) (by decide)
  refine ⟨h.1, h.2.1, h.2.2.1, ?_⟩
  rw [h.2.2.2 WPoll.pending]
  decide

/-- C9 counterexample: the buffer 1 2 3 is fully drained by one accepted
write, the underlying connection flush is still pending, yet the returned
state already has the buffer cleared and the cursor reset: the clear does
not wait for the underlying flush to complete as the claim requires. -/
theorem C9_clear_before_flush_counterexample :
    pollFlush [Except.ok 3] WPoll.pending ⟨[1, 2, 3], 0⟩ = (WPoll.pending, ⟨[], 0⟩) := by
  decide

/-- C10: Frame encode hits the unreachable panic (modelled as none) exactly
on frames whose body is absent, and returns a byte string whenever a body
is present: encode is total only under the precondition that the body is
present. -/
theorem C10_encode_requires_body {H T : Type} (henc : H → List Nat) (benc : T → List Nat)
    (fr : Frame H T) :
    (fr.body = none → Frame.encode henc benc fr = none) ∧
    (∀ b, fr.body = some b → Frame.encode henc benc fr ≠ none) := by
  unfold Frame.encode
  constructor
  · intro hb
    rw [hb]
  · intro b hb
    rw [hb]
    cases b <;> simp

/-- C10 witness: encode of a headered frame with no body panics (none),
and with a typed body present it returns bytes. -/
theorem C10_encode_requires_body_witness :
    Frame.encode (fun _ : Unit => [1]) (fun _ : Unit => [2]) ⟨some (), none⟩ = none ∧
    Frame.encode (fun _ : Unit => [1]) (fun _ : Unit => [2])
        ⟨some (), some (Sum.inr ())⟩ ≠ none :=
  ⟨(C10_encode_requires_body (fun _ : Unit => [1]) (fun _ : Unit => [2])
      ⟨some (), none⟩).1 rfl,
    (C10_encode_requires_body (fun _ : Unit => [1]) (fun _ : Unit => [2])
      ⟨some (), some (Sum.inr ())⟩).2 (Sum.inr ()) rfl⟩

end AsyncProst
